import Mathlib

/-!
Verification development for the debating-website front end
(tabular input normalization and export engine).

The TypeScript source is shallowly embedded:
* JavaScript string primitives (`trim`, `parseInt(_, 10)`, `split`,
  `Array.join`, `Math.max`, `Number.toString`) are modelled as executable
  Lean functions over `String` / `List Char`;
* `parseRows` (src/frontend/src/utils/parsers/parser.ts) throws `Error`s;
  here it returns `Except ParseError _` with one structured constructor per
  error message shape, each carrying exactly the data interpolated into the
  corresponding message string;
* format auto-detection (DebateUploader.tsx, handleFileChange) and the CSV
  result serializer (csvParser.ts, convertResultsToCSV) are embedded as pure
  functions on the same data model.
-/

/-! ## JavaScript string primitives -/

/-- The white-space characters removed by JavaScript `String.prototype.trim`
(ASCII white space, NBSP, BOM and the Unicode line separators). -/
def isJsWS (c : Char) : Bool :=
  c = ' ' ∨ c = '\t' ∨ c = '\n' ∨ c = '\r' ∨ c = '\x0b' ∨ c = '\x0c' ∨
    c.val = 160 ∨ c.val = 0x2028 ∨ c.val = 0x2029 ∨ c.val = 0xfeff

def trimLeadingWS (l : List Char) : List Char := l.dropWhile isJsWS

def trimTrailingWS (l : List Char) : List Char :=
  (l.reverse.dropWhile isJsWS).reverse

/-- JavaScript `String.prototype.trim`. -/
def jsTrim (s : String) : String := ⟨trimTrailingWS (trimLeadingWS s.data)⟩

/-- Value of the longest leading run of decimal digits; `none` when the first
character is not a decimal digit (JavaScript `parseInt` digit scan). -/
def digitsVal : List Char → Option Nat
  | [] => none
  | c :: cs =>
    if c.isDigit then some (digitsValGo (c.toNat - 48) cs) else none
where
  digitsValGo : Nat → List Char → Nat
    | acc, [] => acc
    | acc, c :: cs =>
      if c.isDigit then digitsValGo (acc * 10 + (c.toNat - 48)) cs else acc

/-- JavaScript `parseInt(s, 10)`: skip white space, read an optional sign and
then the longest decimal-digit run; `none` models `NaN` (no digit read). -/
def jsParseInt (s : String) : Option Int :=
  match s.data.dropWhile isJsWS with
  | '-' :: rest => (digitsVal rest).map (fun n => -(n : Int))
  | '+' :: rest => (digitsVal rest).map (fun n => (n : Int))
  | l => (digitsVal l).map (fun n => (n : Int))

/-- JavaScript `Array.prototype.join(sep)`. -/
def jsJoin (sep : String) : List String → String
  | [] => ""
  | [x] => x
  | x :: xs => x ++ sep ++ jsJoin sep xs

/-- JavaScript `Math.max(...l)` for a non-empty spread (the sole call site
guards on `l.length > 0`; the `[]` case is never consulted). -/
def jsMathMax : List Int → Int
  | [] => 0
  | x :: xs => xs.foldl max x

/-- Digits of `n` in base 10, most significant first, pushed onto `acc`
(JavaScript `Number.prototype.toString()` for integral values; the fuel
`n + 1` always suffices, as in the standard decimal printer). -/
def natDecAux : Nat → Nat → List Char → List Char
  | 0, _, acc => acc
  | fuel + 1, n, acc =>
    let d := Char.ofNat (48 + n % 10)
    if n < 10 then d :: acc else natDecAux fuel (n / 10) (d :: acc)

def natToDec (n : Nat) : String := ⟨natDecAux (n + 1) n []⟩

/-- JavaScript `Number.prototype.toString()` on an integral value. -/
def intToDec (i : Int) : String :=
  if i < 0 then "-" ++ natToDec i.natAbs else natToDec i.natAbs

/-- JavaScript `s || ""` for a string `s` (only `""` is falsy). -/
def jsOrEmpty (s : String) : String := if s.length > 0 then s else ""

/-- Split a character list on a separator character; never returns `[]`
(splitting the empty list gives `[[]]`, as JavaScript `"".split(sep)` gives
`[""]`). -/
def splitListOn (sep : Char) : List Char → List (List Char)
  | [] => [[]]
  | c :: cs =>
    if c = sep then [] :: splitListOn sep cs
    else
      match splitListOn sep cs with
      | [] => [[c]]
      | field :: rest => (c :: field) :: rest

/-- JavaScript `String.prototype.split` with a one-character separator. -/
def jsSplit (sep : Char) (s : String) : List String :=
  (splitListOn sep s.data).map (fun l => ⟨l⟩)

/-- ASCII lower-casing of one character (the `toLowerCase` call in the source
only ever feeds the result to a comparison with the ASCII word "group"). -/
def charToLower (c : Char) : Char :=
  if 'A' ≤ c ∧ c ≤ 'Z' then Char.ofNat (c.toNat + 32) else c

/-- JavaScript `String.prototype.toLowerCase`, restricted to ASCII. -/
def jsToLower (s : String) : String := ⟨s.data.map charToLower⟩

instance {ε α : Type} [DecidableEq ε] [DecidableEq α] :
    DecidableEq (Except ε α) := fun a b =>
  match a, b with
  | .ok x, .ok y =>
    if h : x = y then .isTrue (by rw [h]) else .isFalse (by simp [h])
  | .error x, .error y =>
    if h : x = y then .isTrue (by rw [h]) else .isFalse (by simp [h])
  | .ok _, .error _ => .isFalse (by simp)
  | .error _, .ok _ => .isFalse (by simp)

/-! ## Data model and error taxonomy (parser.ts) -/

structure Participant where
  name : String
  preferences : List Int
  group : Option (List String)
deriving DecidableEq, Repr

structure DebateRequest where
  participants : List Participant
deriving DecidableEq, Repr

/-- The errors `parseRows` can throw, one constructor per message shape,
carrying the data interpolated into the message:
* `structural`: "Data must have at least a header row and one data row";
* `typeError`: the `headers[headers.length - 1].toLowerCase()` access on an
  empty header row (a raw TypeError, not a crafted message);
* `rowShape line content`: "Invalid row at line {line}: must have at least
  name and one preference\nLine content: \x22{content}\x22";
* `cellParse line col text content`: "Error at line {line}: Invalid
  preference value \x22{text}\x22 at column {col}\nLine content:
  \x22{content}\x22";
* `emptyDataset`: "No valid participants found in data". -/
inductive ParseError where
  | structural : ParseError
  | typeError : ParseError
  | rowShape (line : Nat) (content : String) : ParseError
  | cellParse (line : Nat) (col : Nat) (text : String) (content : String) : ParseError
  | emptyDataset : ParseError
deriving DecidableEq, Repr

/-! ## Row Normalizer (parser.ts, parseRows) -/

/-- One preference cell (already trimmed): `""` is a provisional missing
value; otherwise `parseInt(v, 10)`, `NaN` raising the cell error with the
1-based column `idx + 2`. -/
def parseCell (line : Nat) (content : String) (idx : Nat) (v : String) :
    Except ParseError (Option Int) :=
  if v = "" then .ok none
  else
    match jsParseInt v with
    | some n => .ok (some n)
    | none => .error (.cellParse line (idx + 2) v content)

/-- The `prefStrings.map((v, idx) => ...)` traversal building
`tempPreferences`; stops at the first failing cell. -/
def parseCells (line : Nat) (content : String) :
    Nat → List String → Except ParseError (List (Option Int))
  | _, [] => .ok []
  | idx, v :: vs =>
    match parseCell line content idx v with
    | .error e => .error e
    | .ok o =>
      match parseCells line content (idx + 1) vs with
      | .error e => .error e
      | .ok os => .ok (o :: os)

/-- Preference parsing with imputation: `validPrefs` are the non-missing
entries, the fill value is `Math.max(...validPrefs) + 1` when any exist and
`1` otherwise, and every missing slot receives the fill value. -/
def parsePrefs (line : Nat) (content : String) (cells : List String) :
    Except ParseError (List Int) :=
  match parseCells line content 0 cells with
  | .error e => .error e
  | .ok temp =>
    let validPrefs := temp.filterMap id
    let fillValue : Int :=
      if validPrefs.length > 0 then jsMathMax validPrefs + 1 else 1
    .ok (temp.map (fun p => p.getD fillValue))

/-- `groupValue.split(";").map(g => g.trim()).filter(g => g.length > 0)`. -/
def splitGroupValue (g : String) : List String :=
  ((jsSplit ';' g).map jsTrim).filter (fun t => t.length > 0)

/-- The preference cells of a (trimmed) data row: `values.slice(1, -1)` when
the grid has a group column, `values.slice(1)` otherwise. -/
def prefCellsOf (hasGroup : Bool) (values : List String) : List String :=
  if hasGroup then (values.drop 1).dropLast else values.drop 1

/-- The participant `group` field from the (trimmed) group cell: split only
when the cell is non-empty, then `undefined` unless the token list is
non-empty. -/
def groupFieldOf (groupValue : String) : Option (List String) :=
  let group := if groupValue.length > 0 then splitGroupValue groupValue else []
  if group.length > 0 then some group else none

/-- One data row of the `parseRows` loop.  `line` is the 1-based line number
reported in errors (`i + 1` for `rows[i]`).  `.ok none` is a silently skipped
blank row; `.ok (some p)` appends participant `p`. -/
def processRow (hasGroup : Bool) (line : Nat) (row : List String) :
    Except ParseError (Option Participant) :=
  let values := row.map jsTrim
  match values with
  | [] => .ok none
  | v0 :: _ =>
    if v0 = "" then .ok none
    else if values.length < 2 then .error (.rowShape line (jsJoin ", " values))
    else
      let name := v0
      let content := jsJoin ", " values
      match parsePrefs line content (prefCellsOf hasGroup values) with
      | .error e => .error e
      | .ok preferences =>
        if hasGroup then
          .ok (some { name, preferences,
                      group := groupFieldOf (values.getLastD "") })
        else
          .ok (some { name, preferences, group := none })

/-- The data-row loop: rows are processed in order, the first error aborts,
skipped rows contribute nothing, and the line counter advances on every row
(skipped or not). -/
def processRows (hasGroup : Bool) : Nat → List (List String) → Except ParseError (List Participant)
  | _, [] => .ok []
  | line, row :: rest =>
    match processRow hasGroup line row with
    | .error e => .error e
    | .ok none => processRows hasGroup (line + 1) rest
    | .ok (some p) =>
      match processRows hasGroup (line + 1) rest with
      | .error e => .error e
      | .ok ps => .ok (p :: ps)

/-- `headers[headers.length - 1].toLowerCase() === "group"` on the trimmed
header row; `none` models the TypeError on an empty header row. -/
def headerHasGroup (headerRow : List String) : Option Bool :=
  ((headerRow.map jsTrim).getLast?).map (fun h => jsToLower h == "group")

/-- `parseRows` (parser.ts lines 17-137). -/
def parseRows (rows : List (List String)) : Except ParseError DebateRequest :=
  if rows.length < 2 then .error .structural
  else
    match rows with
    | [] => .error .structural
    | headerRow :: dataRows =>
      match headerHasGroup headerRow with
      | none => .error .typeError
      | some hasGroup =>
        match processRows hasGroup 2 dataRows with
        | .error e => .error e
        | .ok ps => if ps.length = 0 then .error .emptyDataset else .ok ⟨ps⟩

/-! ## Format Detector (DebateUploader.tsx, handleFileChange lines 92-107) -/

inductive DebateFormat where
  | bp : DebateFormat
  | traditional : DebateFormat
deriving DecidableEq, Repr

/-- Format auto-detection: performed only when the participant list is
non-empty (`none` otherwise), inspecting `participants[0].preferences.length`
alone; `.error n` models the "Invalid preference count: n" file error. -/
def detectFormat (participants : List Participant) :
    Option (Except Nat DebateFormat) :=
  match participants with
  | [] => none
  | p :: _ =>
    let preferencesLength := p.preferences.length
    some (if preferencesLength = 8 then .ok .bp
          else if preferencesLength = 6 then .ok .traditional
          else .error preferencesLength)

/-! ## Result Serializer (csvParser.ts, convertResultsToCSV) -/

structure Assignment where
  name : String
  role : String
  preference : Int
  group : String
deriving DecidableEq, Repr

structure Room where
  name : String
  assignments : List Assignment
deriving DecidableEq, Repr

/-- One assignment line:
`[assignment.name, assignment.role, assignment.preference.toString(),
assignment.group || ""].join(",")`. -/
def assignmentRowCSV (a : Assignment) : String :=
  jsJoin "," [a.name, a.role, intToDec a.preference, jsOrEmpty a.group]

/-- The `lines` array built by `convertResultsToCSV`: the header, then for
each room its name, its assignment lines, and an empty separator line. -/
def convertLines (rooms : List Room) : List String :=
  rooms.foldl
    (fun lines room =>
      (room.assignments.foldl (fun ls a => ls ++ [assignmentRowCSV a])
        (lines ++ [room.name])) ++ [""])
    ["Name,Role,Preference,Group"]

/-- `convertResultsToCSV` (csvParser.ts lines 80-112): the built lines joined
with a newline. -/
def convertResultsToCSV (rooms : List Room) : String :=
  jsJoin "\n" (convertLines rooms)

/-- The CSV download of DebateResults.tsx: content paired with the file name
`debate_assignments_{format}_{timestamp}.csv`; only the file name mentions
the format. -/
def handleDownloadCSV (format : DebateFormat) (rooms : List Room)
    (timestamp : String) : String × String :=
  (convertResultsToCSV rooms,
   "debate_assignments_" ++
     (match format with | .bp => "bp" | .traditional => "traditional") ++
     "_" ++ timestamp ++ ".csv")

/-! ## CellGrid Decoder for delimited text

Modelled from the spec: the decoder used by `parseCSV` is the third-party
`csv-parse` call (options `skip_empty_lines`, `trim`, `relax_quotes`), whose
implementation is not part of this repository; per the spec it decodes
comma-separated, double-quote-escaped, blank-line-tolerant text into a 2-D
grid of trimmed text cells. -/

/-- Split one record into fields: a double quote toggles the in-quotes flag,
a comma outside quotes ends the field, everything else is field text. -/
def splitCSVFields : List Char → Bool → List Char → List (List Char)
  | [], _, cur => [cur.reverse]
  | c :: cs, inQ, cur =>
    if c = '"' then splitCSVFields cs (!inQ) cur
    else if c = ',' ∧ inQ = false then cur.reverse :: splitCSVFields cs false []
    else splitCSVFields cs inQ (c :: cur)

/-- Modelled from the spec: decode delimited text into a 2-D grid — split
into lines, drop blank lines, split each line into fields, trim each cell. -/
def decodeCSV (content : String) : List (List String) :=
  (((splitListOn '\n' content.data).map (fun l => (⟨l⟩ : String))).filter
      (fun l => l ≠ "")).map
    (fun line => (splitCSVFields line.data false []).map (fun f => jsTrim (⟨f⟩ : String)))

/-- A text cell that survives serialize-then-decode intact: no comma, double
quote or newline, and already trimmed. -/
def CleanCell (s : String) : Prop :=
  (∀ c ∈ s.data, ¬(c = ',' ∨ c = '"' ∨ c = '\n')) ∧ jsTrim s = s

instance (s : String) : Decidable (CleanCell s) := by
  unfold CleanCell; infer_instance

/-- The explicit (non-missing, successfully parsed) preference values of a
list of trimmed preference cells, in row order. -/
def explicitPrefs (cells : List String) : List Int :=
  cells.filterMap (fun c => if c = "" then none else jsParseInt c)

/-- Whether the `parseRows` loop skips a data row silently: the trimmed row
is empty or its first trimmed cell is the empty string. -/
def skippedRow (row : List String) : Bool :=
  match row.map jsTrim with
  | [] => true
  | v :: _ => v == ""

/-! ## General lemmas about the embedded primitives -/

theorem parseCells_ok_length {line : Nat} {content : String} {idx : Nat}
    {cells : List String} {temp : List (Option Int)}
    (h : parseCells line content idx cells = .ok temp) :
    temp.length = cells.length := by
  induction cells generalizing idx temp with
  | nil => simp only [parseCells] at h; cases h; rfl
  | cons v vs ih =>
    simp only [parseCells] at h
    cases hc : parseCell line content idx v with
    | error e => rw [hc] at h; cases h
    | ok o =>
      rw [hc] at h
      cases hr : parseCells line content (idx + 1) vs with
      | error e => rw [hr] at h; cases h
      | ok os =>
        rw [hr] at h; cases h
        simp [ih hr]

theorem parseCells_ok_get {line : Nat} {content : String} {idx : Nat}
    {cells : List String} {temp : List (Option Int)}
    (h : parseCells line content idx cells = .ok temp) :
    ∀ (k : Nat) (v : String), cells[k]? = some v →
      (v = "" ∧ temp[k]? = some none) ∨
        (∃ n, jsParseInt v = some n ∧ temp[k]? = some (some n)) := by
  induction cells generalizing idx temp with
  | nil => intro k v hv; simp at hv
  | cons c cs ih =>
    intro k v hv
    simp only [parseCells] at h
    cases hc : parseCell line content idx c with
    | error e => rw [hc] at h; cases h
    | ok o =>
      rw [hc] at h
      cases hr : parseCells line content (idx + 1) cs with
      | error e => rw [hr] at h; cases h
      | ok os =>
        rw [hr] at h; cases h
        cases k with
        | zero =>
          simp only [List.getElem?_cons_zero, Option.some.injEq] at hv
          subst hv
          simp only [parseCell] at hc
          by_cases hemp : c = ""
          · rw [if_pos hemp] at hc; cases hc
            exact Or.inl ⟨hemp, by simp⟩
          · rw [if_neg hemp] at hc
            cases hp : jsParseInt c with
            | none => rw [hp] at hc; cases hc
            | some n =>
              rw [hp] at hc; cases hc
              exact Or.inr ⟨n, rfl, by simp⟩
        | succ k' =>
          simp only [List.getElem?_cons_succ] at hv ⊢
          exact ih hr k' v hv

theorem parseCells_ok_filterMap {line : Nat} {content : String} {idx : Nat}
    {cells : List String} {temp : List (Option Int)}
    (h : parseCells line content idx cells = .ok temp) :
    temp.filterMap id = explicitPrefs cells := by
  induction cells generalizing idx temp with
  | nil => simp only [parseCells] at h; cases h; rfl
  | cons c cs ih =>
    simp only [parseCells] at h
    cases hc : parseCell line content idx c with
    | error e => rw [hc] at h; cases h
    | ok o =>
      rw [hc] at h
      cases hr : parseCells line content (idx + 1) cs with
      | error e => rw [hr] at h; cases h
      | ok os =>
        rw [hr] at h; cases h
        simp only [parseCell] at hc
        by_cases hemp : c = ""
        · rw [if_pos hemp] at hc; cases hc
          simp [explicitPrefs, List.filterMap_cons, hemp, ih hr]
        · rw [if_neg hemp] at hc
          cases hp : jsParseInt c with
          | none => rw [hp] at hc; cases hc
          | some n =>
            rw [hp] at hc; cases hc
            simp [explicitPrefs, List.filterMap_cons, hemp, hp, ih hr]

theorem jsMathMax_max? {l : List Int} (h : l ≠ []) :
    l.max? = some (jsMathMax l) := by
  cases l with
  | nil => exact absurd rfl h
  | cons x xs => rfl

/-- Inversion for a data row that yields a participant. -/
theorem processRow_ok_some {hasGroup : Bool} {line : Nat} {row : List String}
    {p : Participant} (h : processRow hasGroup line row = .ok (some p)) :
    ∃ v0 rest, row.map jsTrim = v0 :: rest ∧ v0 ≠ "" ∧
      (v0 :: rest).length ≥ 2 ∧
      parsePrefs line (jsJoin ", " (v0 :: rest))
        (prefCellsOf hasGroup (v0 :: rest)) = .ok p.preferences ∧
      p.name = v0 ∧
      (hasGroup = true → p.group = groupFieldOf ((v0 :: rest).getLastD "")) ∧
      (hasGroup = false → p.group = none) := by
  unfold processRow at h
  cases hv : row.map jsTrim with
  | nil => rw [hv] at h; cases h
  | cons v0 rest =>
    rw [hv] at h
    simp only at h
    by_cases h0 : v0 = ""
    · rw [if_pos h0] at h; cases h
    rw [if_neg h0] at h
    by_cases hlen : (v0 :: rest).length < 2
    · rw [if_pos hlen] at h; cases h
    rw [if_neg hlen] at h
    cases hp : parsePrefs line (jsJoin ", " (v0 :: rest))
        (prefCellsOf hasGroup (v0 :: rest)) with
    | error e => rw [hp] at h; cases h
    | ok preferences =>
      rw [hp] at h
      cases hasGroup with
      | true =>
        cases h
        refine ⟨v0, rest, rfl, h0, by omega, hp, rfl, fun _ => rfl, ?_⟩
        intro hc; cases hc
      | false =>
        cases h
        refine ⟨v0, rest, rfl, h0, by omega, hp, rfl, ?_, fun _ => rfl⟩
        intro hc; cases hc

theorem processRow_skipped {row : List String} (h : skippedRow row = true)
    (hasGroup : Bool) (line : Nat) :
    processRow hasGroup line row = .ok none := by
  unfold processRow
  unfold skippedRow at h
  cases hv : row.map jsTrim with
  | nil => rfl
  | cons v0 rest =>
    rw [hv] at h
    simp only [beq_iff_eq] at h
    simp [h]

theorem processRow_shortRow {row : List String} (hasGroup : Bool) (line : Nat)
    (hne : skippedRow row = false) (hlen : (row.map jsTrim).length < 2) :
    processRow hasGroup line row =
      .error (.rowShape line (jsJoin ", " (row.map jsTrim))) := by
  unfold skippedRow at hne
  cases hv : row.map jsTrim with
  | nil => rw [hv] at hne; cases hne
  | cons v0 rest =>
    rw [hv] at hne hlen
    have hne' : ¬v0 = "" := by simpa using hne
    have hlen2 : rest.length + 1 < 2 := by simpa using hlen
    simp [processRow, hv, hne', hlen2]

theorem parseCells_error_at {line : Nat} {content : String}
    {cells : List String} {k : Nat} {v : String}
    (hcell : cells[k]? = some v) (hv : v ≠ "") (hnan : jsParseInt v = none)
    (hfirst : ∀ j : Nat, j < k → ∀ w, cells[j]? = some w →
      w = "" ∨ (jsParseInt w).isSome = true) :
    ∀ idx, parseCells line content idx cells =
      .error (.cellParse line (idx + k + 2) v content) := by
  induction cells generalizing k with
  | nil => simp at hcell
  | cons c cs ih =>
    intro idx
    cases k with
    | zero =>
      simp only [List.getElem?_cons_zero, Option.some.injEq] at hcell
      subst hcell
      simp only [parseCells, parseCell, if_neg hv, hnan]
    | succ k' =>
      simp only [List.getElem?_cons_succ] at hcell
      have hc0 := hfirst 0 (Nat.succ_pos k') c (by simp)
      have hrec := ih hcell
        (fun j hj w hw => hfirst (j + 1) (by omega) w (by simpa using hw))
        (idx + 1)
      have harith : idx + 1 + k' + 2 = idx + (k' + 1) + 2 := by omega
      rw [harith] at hrec
      rcases hc0 with hc0 | hc0
      · simp only [parseCells, parseCell, if_pos hc0, hrec]
      · cases hp : jsParseInt c with
        | none => rw [hp] at hc0; cases hc0
        | some n =>
          by_cases hcemp : c = ""
          · simp only [parseCells, parseCell, if_pos hcemp, hrec]
          · simp only [parseCells, parseCell, if_neg hcemp, hp, hrec]

theorem processRow_cellError {row : List String} {hasGroup : Bool}
    {line : Nat} {e : ParseError}
    (hne : skippedRow row = false) (hlen : 2 ≤ (row.map jsTrim).length)
    (herr : parseCells line (jsJoin ", " (row.map jsTrim)) 0
      (prefCellsOf hasGroup (row.map jsTrim)) = .error e) :
    processRow hasGroup line row = .error e := by
  unfold skippedRow at hne
  cases hv : row.map jsTrim with
  | nil => rw [hv] at hne; cases hne
  | cons v0 rest =>
    rw [hv] at hne hlen herr
    have hne' : ¬v0 = "" := by simpa using hne
    have hnl : ¬rest.length + 1 < 2 := by simp at hlen ⊢; omega
    simp [processRow, hv, hne', hnl, parsePrefs, herr]

theorem processRows_error_of {hasGroup : Bool} {row : List String}
    {e : ParseError} (pre post : List (List String)) (start : Nat)
    (hpre : ∀ i (hi : i < pre.length),
      ∃ o, processRow hasGroup (start + i) (pre.get ⟨i, hi⟩) = .ok o)
    (herr : processRow hasGroup (start + pre.length) row = .error e) :
    processRows hasGroup start (pre ++ row :: post) = .error e := by
  induction pre generalizing start with
  | nil =>
    simp only [List.length_nil, Nat.add_zero] at herr
    simp only [List.nil_append, processRows]
    rw [herr]
  | cons q qs ih =>
    obtain ⟨o, ho⟩ := hpre 0 (Nat.succ_pos qs.length)
    rw [Nat.add_zero] at ho
    have hpre' : ∀ i (hi : i < qs.length),
        ∃ o, processRow hasGroup (start + 1 + i) (qs.get ⟨i, hi⟩) = .ok o := by
      intro i hi
      have := hpre (i + 1) (by simpa using Nat.succ_lt_succ hi)
      simpa [Nat.add_assoc, Nat.add_comm 1 i] using this
    have herr' : processRow hasGroup (start + 1 + qs.length) row = .error e := by
      have harith : start + 1 + qs.length = start + (q :: qs).length := by
        simp [Nat.add_assoc, Nat.add_comm 1 qs.length]
      rw [harith]
      exact herr
    have hrec := ih (start + 1) hpre' herr'
    have ho' : processRow hasGroup start q = .ok o := ho
    simp only [List.cons_append, processRows]
    rw [ho']
    cases o with
    | none => exact hrec
    | some p => rw [List.append_eq, hrec]

theorem processRows_all_skipped {dataRows : List (List String)}
    (h : ∀ row ∈ dataRows, skippedRow row = true)
    (hasGroup : Bool) (start : Nat) :
    processRows hasGroup start dataRows = .ok [] := by
  induction dataRows generalizing start with
  | nil => rfl
  | cons row rest ih =>
    simp only [processRows]
    rw [processRow_skipped (h row (by simp)) hasGroup start]
    exact ih (fun r hr => h r (by simp [hr])) (start + 1)

theorem parseRows_error_of {header : List String}
    {dataRows : List (List String)} {hasGroup : Bool} {e : ParseError}
    (hh : headerHasGroup header = some hasGroup)
    (herr : processRows hasGroup 2 dataRows = .error e) :
    parseRows (header :: dataRows) = .error e := by
  cases dataRows with
  | nil => cases herr
  | cons row rest =>
    have hlen : ¬(header :: row :: rest).length < 2 := by
      simp only [List.length_cons]; omega
    simp [parseRows, hlen, hh, herr]

theorem string_length_pos (s : String) : 0 < s.length ↔ s ≠ "" := by
  cases s with
  | mk l =>
    rw [Ne, String.ext_iff]
    show 0 < l.length ↔ ¬l = "".data
    simp [List.length_pos]

theorem groupFieldOf_getD (gv : String) :
    (groupFieldOf gv).getD [] = splitGroupValue gv := by
  by_cases h1 : 0 < gv.length
  · simp only [groupFieldOf, gt_iff_lt, if_pos h1]
    by_cases h2 : 0 < (splitGroupValue gv).length
    · simp [h2]
    · have hx : splitGroupValue gv = [] := by
        cases hy : splitGroupValue gv with
        | nil => rfl
        | cons a l => rw [hy] at h2; simp at h2
      simp [h2, hx]
  · have hgv : gv = "" := by
      by_contra hne
      exact h1 ((string_length_pos gv).mpr hne)
    subst hgv
    decide

theorem groupFieldOf_empty : groupFieldOf "" = none := by decide

/-- A two-cell data row under a group header: no preference cells at all. -/
theorem processRow_twoCellGroupRow (line : Nat) (n c : String)
    (h : jsTrim n ≠ "") :
    processRow true line [n, c] =
      .ok (some ⟨jsTrim n, [], groupFieldOf (jsTrim c)⟩) := by
  simp [processRow, parsePrefs, parseCells, prefCellsOf, h, List.getLastD]

theorem parseRows_twoCellGroupRow (header : List String) (n c : String)
    (hh : headerHasGroup header = some true) (hn : jsTrim n ≠ "") :
    parseRows [header, [n, c]] =
      .ok ⟨[⟨jsTrim n, [], groupFieldOf (jsTrim c)⟩]⟩ := by
  have h1 := processRow_twoCellGroupRow 2 n c hn
  simp [parseRows, hh, processRows, h1]

theorem dropWhile_head_false {p : Char → Bool} {l : List Char} {c : Char}
    {cs : List Char} (h : l.dropWhile p = c :: cs) : p c = false := by
  induction l with
  | nil => cases h
  | cons a as ih =>
    by_cases ha : p a
    · rw [List.dropWhile_cons_of_pos ha] at h
      exact ih h
    · rw [List.dropWhile_cons_of_neg ha] at h
      cases h
      exact eq_false_of_ne_true ha

theorem trimTrailingWS_idem (l : List Char) :
    trimTrailingWS (trimTrailingWS l) = trimTrailingWS l := by
  unfold trimTrailingWS
  rw [List.reverse_reverse, List.dropWhile_idempotent]

theorem trimLeadingWS_trimTrailingWS (l : List Char) :
    trimLeadingWS (trimTrailingWS (trimLeadingWS l)) =
      trimTrailingWS (trimLeadingWS l) := by
  cases hm : trimLeadingWS l with
  | nil => rfl
  | cons c cs =>
    have hc : isJsWS c = false := dropWhile_head_false hm
    have hcp : ¬isJsWS c = true := by rw [hc]; exact Bool.false_ne_true
    unfold trimTrailingWS
    rw [List.reverse_cons, List.dropWhile_append]
    by_cases hD : (cs.reverse.dropWhile isJsWS).isEmpty
    · rw [if_pos hD, List.dropWhile_cons_of_neg hcp, List.reverse_singleton]
      unfold trimLeadingWS
      rw [List.dropWhile_cons_of_neg hcp]
    · rw [if_neg hD, List.reverse_append, List.reverse_singleton,
        List.singleton_append]
      unfold trimLeadingWS
      rw [List.dropWhile_cons_of_neg hcp]

theorem jsTrim_idem (s : String) : jsTrim (jsTrim s) = jsTrim s := by
  cases s with
  | mk l =>
    show (⟨trimTrailingWS (trimLeadingWS (trimTrailingWS (trimLeadingWS l)))⟩ :
      String) = ⟨trimTrailingWS (trimLeadingWS l)⟩
    rw [trimLeadingWS_trimTrailingWS, trimTrailingWS_idem]

theorem splitGroupValue_tokens (gv : String) :
    ∀ t ∈ splitGroupValue gv, t ≠ "" ∧ jsTrim t = t := by
  intro t ht
  unfold splitGroupValue at ht
  have hmem := List.of_mem_filter ht
  have ht2 := List.mem_of_mem_filter ht
  obtain ⟨u, -, hu⟩ := List.mem_map.mp ht2
  constructor
  · exact (string_length_pos t).mp (by simpa using hmem)
  · rw [← hu, jsTrim_idem]

theorem groupFieldOf_some {gv : String} {l : List String}
    (h : groupFieldOf gv = some l) :
    l ≠ [] ∧ ∀ t ∈ l, t ≠ "" ∧ jsTrim t = t := by
  unfold groupFieldOf at h
  by_cases hgv : 0 < gv.length
  · rw [if_pos hgv] at h
    by_cases hg : 0 < (splitGroupValue gv).length
    · rw [if_pos hg] at h
      cases h
      refine ⟨?_, splitGroupValue_tokens gv⟩
      intro hcon
      rw [hcon] at hg
      simp at hg
    · rw [if_neg hg] at h
      cases h
  · rw [if_neg hgv] at h
    simp at h

theorem processRows_mem {hasGroup : Bool} {start : Nat}
    {dataRows : List (List String)} {ps : List Participant}
    (h : processRows hasGroup start dataRows = .ok ps) :
    ∀ p ∈ ps, ∃ line row, processRow hasGroup line row = .ok (some p) := by
  induction dataRows generalizing start ps with
  | nil =>
    simp only [processRows] at h
    cases h
    intro p hp
    simp at hp
  | cons row rest ih =>
    simp only [processRows] at h
    cases hr : processRow hasGroup start row with
    | error e => rw [hr] at h; cases h
    | ok o =>
      rw [hr] at h
      cases o with
      | none => exact ih h
      | some q =>
        cases hrest : processRows hasGroup (start + 1) rest with
        | error e => rw [hrest] at h; cases h
        | ok ps' =>
          rw [hrest] at h
          cases h
          intro p hp
          rcases List.mem_cons.mp hp with hq | hmem
          · exact ⟨start, row, by rw [← hq] at hr; exact hr⟩
          · exact ih hrest p hmem

theorem parseRows_ok_inv {rows : List (List String)} {req : DebateRequest}
    (h : parseRows rows = .ok req) :
    ∃ header dataRows hg, rows = header :: dataRows ∧
      headerHasGroup header = some hg ∧
      processRows hg 2 dataRows = .ok req.participants := by
  unfold parseRows at h
  split at h
  · cases h
  · split at h
    · cases h
    next header dataRows hguard =>
      split at h
      · cases h
      next hg hh =>
        split at h
        · cases h
        next psl peq =>
          split at h
          · cases h
          · cases h
            exact ⟨header, dataRows, hg, rfl, hh, peq⟩

theorem jsOrEmpty_eq (s : String) : jsOrEmpty s = s := by
  unfold jsOrEmpty
  by_cases h : s.length > 0
  · rw [if_pos h]
  · rw [if_neg h]
    by_contra hne
    exact h ((string_length_pos s).mpr (fun hc => hne hc.symm))

theorem foldl_push {α : Type} (f : α → String) (l : List α) :
    ∀ init : List String,
      l.foldl (fun ls a => ls ++ [f a]) init = init ++ l.map f := by
  induction l with
  | nil => intro init; simp
  | cons a as ih =>
    intro init
    simp only [List.foldl_cons, List.map_cons]
    rw [ih (init ++ [f a]), List.append_assoc]
    rfl

theorem convertLines_eq (rooms : List Room) :
    convertLines rooms =
      "Name,Role,Preference,Group" ::
        rooms.flatMap (fun room =>
          room.name :: (room.assignments.map assignmentRowCSV ++ [""])) := by
  suffices hgen : ∀ init : List String,
      rooms.foldl
        (fun lines room =>
          (room.assignments.foldl (fun ls a => ls ++ [assignmentRowCSV a])
            (lines ++ [room.name])) ++ [""])
        init =
      init ++ rooms.flatMap (fun room =>
        room.name :: (room.assignments.map assignmentRowCSV ++ [""])) by
    exact hgen ["Name,Role,Preference,Group"]
  induction rooms with
  | nil => intro init; simp
  | cons room rest ih =>
    intro init
    simp only [List.foldl_cons, List.flatMap_cons]
    rw [foldl_push, ih, List.append_assoc, List.append_assoc]
    simp

theorem data_append (s t : String) : (s ++ t).data = s.data ++ t.data := rfl

theorem string_mk_data (s : String) : (⟨s.data⟩ : String) = s := rfl

theorem mem_jsJoin (sep : String) (xs : List String) (c : Char)
    (h : c ∈ (jsJoin sep xs).data) :
    c ∈ sep.data ∨ ∃ x ∈ xs, c ∈ x.data := by
  induction xs with
  | nil => simp [jsJoin] at h
  | cons x ys ih =>
    cases ys with
    | nil =>
      right
      exact ⟨x, by simp, by simpa [jsJoin] using h⟩
    | cons y rest =>
      rw [show jsJoin sep (x :: y :: rest) = x ++ sep ++ jsJoin sep (y :: rest)
          from rfl, data_append, data_append] at h
      rcases List.mem_append.mp h with h1 | h2
      · rcases List.mem_append.mp h1 with h3 | h4
        · exact Or.inr ⟨x, by simp, h3⟩
        · exact Or.inl h4
      · rcases ih h2 with h3 | ⟨z, hz, hcz⟩
        · exact Or.inl h3
        · exact Or.inr ⟨z, by simp [hz], hcz⟩

theorem splitListOn_of_not_mem {sep : Char} {l : List Char}
    (h : ∀ c ∈ l, c ≠ sep) : splitListOn sep l = [l] := by
  induction l with
  | nil => rfl
  | cons a as ih =>
    have ha : ¬a = sep := h a (by simp)
    have hrec := ih (fun c hc => h c (by simp [hc]))
    simp only [splitListOn, if_neg ha, hrec]

theorem splitListOn_append {sep : Char} {l : List Char}
    (h : ∀ c ∈ l, c ≠ sep) (t : List Char) :
    splitListOn sep (l ++ sep :: t) = l :: splitListOn sep t := by
  induction l with
  | nil => simp [splitListOn]
  | cons a as ih =>
    have ha : ¬a = sep := h a (by simp)
    have hrec := ih (fun c hc => h c (by simp [hc]))
    simp only [List.cons_append, splitListOn, if_neg ha]
    rw [List.append_eq, hrec]

theorem splitListOn_jsJoin {sep : Char} {sepS : String}
    (hs : sepS.data = [sep]) (xs : List String) (hne : xs ≠ [])
    (h : ∀ x ∈ xs, ∀ c ∈ x.data, c ≠ sep) :
    splitListOn sep (jsJoin sepS xs).data = xs.map String.data := by
  induction xs with
  | nil => exact absurd rfl hne
  | cons x ys ih =>
    cases ys with
    | nil =>
      show splitListOn sep x.data = [x.data]
      exact splitListOn_of_not_mem (h x (by simp))
    | cons y rest =>
      rw [show jsJoin sepS (x :: y :: rest) = x ++ sepS ++ jsJoin sepS (y :: rest)
          from rfl, data_append, data_append, hs, List.append_assoc,
        List.singleton_append,
        splitListOn_append (h x (by simp)),
        ih (by simp) (fun z hz c hc => h z (by simp [hz]) c hc)]
      rfl

theorem splitCSVFields_clean {l : List Char}
    (h : ∀ c ∈ l, ¬c = ',' ∧ ¬c = '"') :
    ∀ cur, splitCSVFields l false cur = [cur.reverse ++ l] := by
  induction l with
  | nil => intro cur; simp [splitCSVFields]
  | cons a as ih =>
    intro cur
    have ha := h a (by simp)
    have hrec := ih (fun c hc => h c (by simp [hc]))
    simp [splitCSVFields, ha.1, ha.2, hrec (a :: cur)]

theorem splitCSVFields_append {l : List Char}
    (h : ∀ c ∈ l, ¬c = ',' ∧ ¬c = '"') (t : List Char) :
    ∀ cur, splitCSVFields (l ++ ',' :: t) false cur =
      (cur.reverse ++ l) :: splitCSVFields t false [] := by
  induction l with
  | nil =>
    intro cur
    simp [splitCSVFields]
  | cons a as ih =>
    intro cur
    have ha := h a (by simp)
    have hrec := ih (fun c hc => h c (by simp [hc]))
    simp [splitCSVFields, ha.1, ha.2, List.append_eq, hrec (a :: cur)]

theorem splitCSVFields_jsJoin {xs : List String} (hne : xs ≠ [])
    (h : ∀ x ∈ xs, ∀ c ∈ x.data, ¬c = ',' ∧ ¬c = '"') :
    splitCSVFields (jsJoin "," xs).data false [] = xs.map String.data := by
  induction xs with
  | nil => exact absurd rfl hne
  | cons x ys ih =>
    cases ys with
    | nil =>
      show splitCSVFields x.data false [] = [x.data]
      rw [splitCSVFields_clean (h x (by simp)) []]
      rfl
    | cons y rest =>
      rw [show jsJoin "," (x :: y :: rest) = x ++ "," ++ jsJoin "," (y :: rest)
          from rfl, data_append, data_append,
        show ("," : String).data = [','] from rfl, List.append_assoc,
        List.singleton_append,
        splitCSVFields_append (h x (by simp)) _ [],
        ih (by simp) (fun z hz c hc => h z (by simp [hz]) c hc)]
      rfl

/-- The ten decimal digit characters. -/
def decDigits : List Char := ['0', '1', '2', '3', '4', '5', '6', '7', '8', '9']

theorem digitChar_mem (k : Nat) (h : k < 10) :
    Char.ofNat (48 + k) ∈ decDigits := by
  interval_cases k <;> decide

theorem natDecAux_mem (fuel : Nat) :
    ∀ (n : Nat) (acc : List Char) (c : Char), c ∈ natDecAux fuel n acc →
      c ∈ acc ∨ c ∈ decDigits := by
  induction fuel with
  | zero =>
    intro n acc c h
    simp only [natDecAux] at h
    exact Or.inl h
  | succ f ih =>
    intro n acc c h
    simp only [natDecAux] at h
    by_cases hn : n < 10
    · rw [if_pos hn] at h
      rcases List.mem_cons.mp h with hc | hc
      · exact Or.inr (by rw [hc]; exact digitChar_mem (n % 10) (Nat.mod_lt _ (by omega)))
      · exact Or.inl hc
    · rw [if_neg hn] at h
      rcases ih (n / 10) _ c h with hc | hc
      · rcases List.mem_cons.mp hc with hc2 | hc2
        · exact Or.inr (by rw [hc2]; exact digitChar_mem (n % 10) (Nat.mod_lt _ (by omega)))
        · exact Or.inl hc2
      · exact Or.inr hc

theorem intToDec_chars (i : Int) :
    ∀ c ∈ (intToDec i).data, c = '-' ∨ c ∈ decDigits := by
  intro c hc
  unfold intToDec at hc
  by_cases hi : i < 0
  · rw [if_pos hi] at hc
    rw [data_append] at hc
    rcases List.mem_append.mp hc with h1 | h2
    · exact Or.inl (by simpa using h1)
    · exact Or.inr ((natDecAux_mem _ _ _ c h2).resolve_left (by simp))
  · rw [if_neg hi] at hc
    exact Or.inr ((natDecAux_mem _ _ _ c hc).resolve_left (by simp))

theorem dropWhile_of_all_false {p : Char → Bool} {l : List Char}
    (h : ∀ c ∈ l, p c = false) : l.dropWhile p = l := by
  cases l with
  | nil => rfl
  | cons a as =>
    have := h a (by simp)
    rw [List.dropWhile_cons_of_neg (by rw [this]; exact Bool.false_ne_true)]

theorem jsTrim_of_no_ws {s : String} (h : ∀ c ∈ s.data, isJsWS c = false) :
    jsTrim s = s := by
  cases s with
  | mk l =>
    show (⟨trimTrailingWS (trimLeadingWS l)⟩ : String) = ⟨l⟩
    unfold trimLeadingWS trimTrailingWS
    rw [dropWhile_of_all_false h,
      dropWhile_of_all_false (fun c hc => h c (List.mem_reverse.mp hc)),
      List.reverse_reverse]

theorem decDigits_not_special :
    ∀ c ∈ decDigits, ¬(c = ',' ∨ c = '"' ∨ c = '\n') := by decide

theorem decDigits_not_ws : ∀ c ∈ decDigits, isJsWS c = false := by decide

theorem cleanCell_intToDec (i : Int) : CleanCell (intToDec i) := by
  have hchar := intToDec_chars i
  constructor
  · intro c hc
    rcases hchar c hc with h1 | h2
    · rw [h1]; decide
    · exact decDigits_not_special c h2
  · apply jsTrim_of_no_ws
    intro c hc
    rcases hchar c hc with h1 | h2
    · rw [h1]; decide
    · exact decDigits_not_ws c h2

theorem assignmentRowCSV_ne_empty (a : Assignment) : assignmentRowCSV a ≠ "" := by
  intro h
  have hd := congrArg String.data h
  rw [show assignmentRowCSV a =
      a.name ++ "," ++ jsJoin "," [a.role, intToDec a.preference, jsOrEmpty a.group]
      from rfl, data_append, data_append,
    show ("," : String).data = [','] from rfl] at hd
  simp at hd

theorem map_mk_data (xs : List String) :
    (xs.map String.data).map (fun l => (⟨l⟩ : String)) = xs := by
  induction xs with
  | nil => rfl
  | cons x ys ih => simp [ih]

/-- Splitting into fields, then trimming, recovers clean cells. -/
theorem decodeLine_jsJoin {xs : List String} (hne : xs ≠ [])
    (h : ∀ x ∈ xs, (∀ c ∈ x.data, ¬(c = ',' ∨ c = '"' ∨ c = '\n')) ∧
      jsTrim x = x) :
    (splitCSVFields (jsJoin "," xs).data false []).map
      (fun f => jsTrim (⟨f⟩ : String)) = xs := by
  rw [splitCSVFields_jsJoin hne (fun x hx c hc =>
    ⟨fun hcon => (h x hx).1 c hc (Or.inl hcon),
     fun hcon => (h x hx).1 c hc (Or.inr (Or.inl hcon))⟩)]
  rw [List.map_map]
  have : ∀ x ∈ xs, ((fun f => jsTrim (⟨f⟩ : String)) ∘ String.data) x = x := by
    intro x hx
    show jsTrim (⟨x.data⟩ : String) = x
    rw [string_mk_data]
    exact (h x hx).2
  calc xs.map ((fun f => jsTrim (⟨f⟩ : String)) ∘ String.data)
      = xs.map id := List.map_congr_left this
    _ = xs := List.map_id xs

/-! ## Claim theorems -/

/-- C1: For every data row processed by parseRows, if the row has at least
one successfully parsed (non-missing) preference value, then every empty
preference cell in that row resolves to max(explicit) + 1, the same single
value for all missing slots in the row; if the row has zero explicit
preference values, every missing slot resolves to 1. -/
theorem claim_c1_imputation (hasGroup : Bool) (line : Nat) (row : List String)
    (p : Participant) (h : processRow hasGroup line row = .ok (some p)) :
    p.preferences.length = (prefCellsOf hasGroup (row.map jsTrim)).length ∧
    ∀ k : Nat, (prefCellsOf hasGroup (row.map jsTrim))[k]? = some "" →
      ((explicitPrefs (prefCellsOf hasGroup (row.map jsTrim)) = [] →
          p.preferences[k]? = some 1) ∧
       (∀ m,
          (explicitPrefs (prefCellsOf hasGroup (row.map jsTrim))).max? = some m →
          p.preferences[k]? = some (m + 1))) := by
  obtain ⟨v0, rest, hv, -, -, hp, -, -, -⟩ := processRow_ok_some h
  rw [hv]
  unfold parsePrefs at hp
  cases hc : parseCells line (jsJoin ", " (v0 :: rest)) 0
      (prefCellsOf hasGroup (v0 :: rest)) with
  | error e => rw [hc] at hp; cases hp
  | ok temp =>
    rw [hc] at hp
    simp only [Except.ok.injEq] at hp
    have hfm := parseCells_ok_filterMap hc
    have hlen := parseCells_ok_length hc
    constructor
    · rw [← hp]; simp [hlen]
    · intro k hk
      have hget := parseCells_ok_get hc k "" hk
      rcases hget with ⟨-, htemp⟩ | ⟨n, hn, -⟩
      · have hpk : p.preferences[k]? =
            some ((none : Option Int).getD
              (if (temp.filterMap id).length > 0 then
                jsMathMax (temp.filterMap id) + 1 else 1)) := by
          rw [← hp, List.getElem?_map, htemp]; rfl
        constructor
        · intro hempty
          rw [hfm] at hpk
          rw [hempty] at hpk
          simpa using hpk
        · intro m hm
          rw [hfm] at hpk
          have hne : explicitPrefs (prefCellsOf hasGroup (v0 :: rest)) ≠ [] := by
            intro hcon
            rw [hcon] at hm; cases hm
          rw [jsMathMax_max? hne] at hm
          cases hm
          have hpos : (explicitPrefs (prefCellsOf hasGroup (v0 :: rest))).length > 0 := by
            cases hx : explicitPrefs (prefCellsOf hasGroup (v0 :: rest)) with
            | nil => exact absurd hx hne
            | cons a l => simp
          rw [if_pos hpos] at hpk
          simpa using hpk
      · cases hn

/-- C1 witness: the spec's end-to-end row B (missing first preference,
explicit value 1, so the missing slot resolves to 1 + 1). -/
theorem claim_c1_imputation_witness :
    (⟨"B", [2, 1], none⟩ : Participant).preferences[0]? = some (1 + 1) := by
  have h := (claim_c1_imputation false 3 ["B", "", "1"] ⟨"B", [2, 1], none⟩
    (by decide)).2 0 (by decide)
  exact h.2 1 (by decide)

/-- C4: For every non-empty DebateRequest, format detection inspects only
the first participant's preference-list length: length 8 selects
BritishParliamentary, length 6 selects Traditional, and any other length
fails with a FormatMismatchError reporting the detected count; participants
after the first are never consulted. -/
theorem claim_c4_format_detection (p : Participant) (ps : List Participant) :
    (p.preferences.length = 8 → detectFormat (p :: ps) = some (.ok .bp)) ∧
    (p.preferences.length = 6 →
      detectFormat (p :: ps) = some (.ok .traditional)) ∧
    (p.preferences.length ≠ 8 → p.preferences.length ≠ 6 →
      detectFormat (p :: ps) = some (.error p.preferences.length)) ∧
    (∀ qs, detectFormat (p :: ps) = detectFormat (p :: qs)) := by
  refine ⟨fun h8 => ?_, fun h6 => ?_, fun h8 h6 => ?_, fun qs => rfl⟩
  · simp [detectFormat, h8]
  · simp [detectFormat, h6]
  · simp [detectFormat, h8, h6]

/-- C4 witness: detection on concrete 8-, 6- and 5-preference first
participants. -/
theorem claim_c4_format_detection_witness :
    detectFormat [⟨"A", [1, 2, 3, 4, 5, 6, 7, 8], none⟩] = some (.ok .bp) ∧
    detectFormat [⟨"B", [1, 2, 3, 4, 5, 6], none⟩, ⟨"X", [], none⟩] =
      some (.ok .traditional) ∧
    detectFormat [⟨"C", [1, 2, 3, 4, 5], none⟩] = some (.error 5) := by
  refine ⟨?_, ?_, ?_⟩
  · exact (claim_c4_format_detection ⟨"A", [1, 2, 3, 4, 5, 6, 7, 8], none⟩ []).1
      (by decide)
  · exact (claim_c4_format_detection ⟨"B", [1, 2, 3, 4, 5, 6], none⟩
      [⟨"X", [], none⟩]).2.1 (by decide)
  · exact (claim_c4_format_detection ⟨"C", [1, 2, 3, 4, 5], none⟩ []).2.2.1
      (by decide) (by decide)

/-- C3: parseRows detects a group column exactly when the last header cell,
after trimming, equals "group" case-insensitively; and for every data row
processed under a group column, a non-empty trimmed group cell is split on
";" with each token trimmed and empty tokens discarded to form the
participant's groups, while an empty trimmed group cell leaves the
participant with no groups. -/
theorem claim_c3_group_column (headerRow row : List String) (lastH : String)
    (line : Nat) (p : Participant) :
    ((headerRow.map jsTrim).getLast? = some lastH →
      (headerHasGroup headerRow = some true ↔
        jsToLower lastH = jsToLower "group")) ∧
    (processRow true line row = .ok (some p) →
      ((row.map jsTrim).getLastD "" ≠ "" →
        p.group.getD [] =
          ((jsSplit ';' ((row.map jsTrim).getLastD "")).map jsTrim).filter
            (fun t => t.length > 0)) ∧
      ((row.map jsTrim).getLastD "" = "" → p.group = none)) := by
  constructor
  · intro hlast
    have hg : jsToLower "group" = "group" := by decide
    rw [headerHasGroup, hlast, hg]
    simp [beq_iff_eq]
  · intro h
    obtain ⟨v0, rest, hv, -, -, -, -, hgrp, -⟩ := processRow_ok_some h
    rw [hv]
    have hpg : p.group = groupFieldOf ((v0 :: rest).getLastD "") := hgrp rfl
    constructor
    · intro _
      rw [hpg, groupFieldOf_getD]
      rfl
    · intro hempty
      rw [hpg, hempty]
      exact groupFieldOf_empty

/-- C3 witness: a case-insensitive "Group" header with surrounding
whitespace detects the group column; "11am;2pm" splits into two groups; a
whitespace-only group cell yields no groups. -/
theorem claim_c3_group_column_witness :
    headerHasGroup ["Name", "1st", " GrOuP "] = some true ∧
    (⟨"A", [1], some ["11am", "2pm"]⟩ : Participant).group.getD [] =
      ((jsSplit ';' ((["A", "1", "11am;2pm"].map jsTrim).getLastD "")).map
          jsTrim).filter (fun t => t.length > 0) ∧
    (⟨"B", [1], none⟩ : Participant).group = none := by
  refine ⟨?_, ?_, ?_⟩
  · exact ((claim_c3_group_column ["Name", "1st", " GrOuP "] [] "GrOuP" 2
      ⟨"", [], none⟩).1 (by decide)).mpr (by decide)
  · exact ((claim_c3_group_column [] ["A", "1", "11am;2pm"] "" 2
      ⟨"A", [1], some ["11am", "2pm"]⟩).2 (by decide)).1 (by decide)
  · exact ((claim_c3_group_column [] ["B", "1", "   "] "" 2
      ⟨"B", [1], none⟩).2 (by decide)).2 (by decide)

/-- C9: When the header declares a group column, a data row with exactly 2
cells (a non-empty name and one more cell) is accepted without error and
yields a participant whose preference list is empty and whose sole non-name
cell is consumed as the group cell; no error is raised for the absence of
preference cells. -/
theorem claim_c9_two_cell_row (line : Nat) (header : List String)
    (n c : String) :
    (jsTrim n ≠ "" →
      processRow true line [n, c] =
        .ok (some ⟨jsTrim n, [], groupFieldOf (jsTrim c)⟩)) ∧
    (headerHasGroup header = some true → jsTrim n ≠ "" →
      parseRows [header, [n, c]] =
        .ok ⟨[⟨jsTrim n, [], groupFieldOf (jsTrim c)⟩]⟩) := by
  exact ⟨fun hn => processRow_twoCellGroupRow line n c hn,
    fun hh hn => parseRows_twoCellGroupRow header n c hh hn⟩

/-- C9 witness: a concrete two-cell row under a "Group" header parses to a
participant with no preferences and the second cell as its group. -/
theorem claim_c9_two_cell_row_witness :
    parseRows [["Name", "Group"], ["A", "11am"]] =
      .ok ⟨[⟨"A", [], some ["11am"]⟩]⟩ := by
  have h := (claim_c9_two_cell_row 2 ["Name", "Group"] "A" "11am").2
    (by decide) (by decide)
  exact h

/-- C2 counterexample: the cell "2x" is non-empty and is not a base-10
integer numeral, yet parseRows does not fail: JavaScript parseInt reads the
leading digit run, so the row parses with preference 2. -/
theorem claim_c2_counterexample :
    parseRows [["Name", "1st"], ["C", "2x"]] = .ok ⟨[⟨"C", [2], none⟩]⟩ ∧
    ("2x" : String) ≠ "" ∧ jsParseInt "2x" = some 2 := by decide

/-- C2 (amended): an empty (after trimming) preference cell is treated as
missing, and a non-empty cell on which parseInt with radix 10 yields NaN
(its text does not start with an optional sign followed by a decimal digit)
— the first such cell of the row — fails with a CellParseError reporting the
1-based line number, the 1-based column number (idx + 2), and the offending
cell text; a non-empty cell with a valid digit run such as "2x" parses as
that leading integer instead of failing. -/
theorem claim_c2_cell_errors :
    (∀ (line idx : Nat) (content : String),
        parseCell line content idx "" = .ok none) ∧
    (∀ (hasGroup : Bool) (header : List String)
        (pre post : List (List String)) (row : List String) (k : Nat)
        (v : String),
        headerHasGroup header = some hasGroup →
        (∀ i (hi : i < pre.length),
          ∃ o, processRow hasGroup (2 + i) (pre.get ⟨i, hi⟩) = .ok o) →
        skippedRow row = false →
        2 ≤ (row.map jsTrim).length →
        (prefCellsOf hasGroup (row.map jsTrim))[k]? = some v →
        v ≠ "" → jsParseInt v = none →
        (∀ j : Nat, j < k → ∀ w,
          (prefCellsOf hasGroup (row.map jsTrim))[j]? = some w →
          w = "" ∨ (jsParseInt w).isSome = true) →
        parseRows (header :: (pre ++ row :: post)) =
          .error (.cellParse (2 + pre.length) (k + 2) v
            (jsJoin ", " (row.map jsTrim)))) := by
  constructor
  · intro line idx content
    simp [parseCell]
  · intro hasGroup header pre post row k v hh hpre hne hlen hcell hv hnan hfirst
    have hcells := @parseCells_error_at (2 + pre.length)
      (jsJoin ", " (row.map jsTrim)) (prefCellsOf hasGroup (row.map jsTrim))
      k v hcell hv hnan hfirst 0
    rw [Nat.zero_add] at hcells
    exact parseRows_error_of hh
      (processRows_error_of pre post 2 hpre (processRow_cellError hne hlen hcells))

/-- C2 witness: the spec's end-to-end scenario, a row with non-numeric first
preference "x" fails naming line 2, column 2 and value "x". -/
theorem claim_c2_cell_errors_witness :
    parseRows [["Name", "1st", "2nd"], ["C", "x", "2"]] =
      .error (.cellParse 2 2 "x" "C, x, 2") := by
  have h := claim_c2_cell_errors.2 false ["Name", "1st", "2nd"] [] []
    ["C", "x", "2"] 0 "x" (by decide)
    (fun i hi => absurd hi (by simp)) (by decide) (by decide) (by decide)
    (by decide) (by decide) (fun j hj => absurd hj (by omega))
  exact h

/-- C7 counterexample: a grid with 2 rows whose only data row yields no
participant fails with the row-shape error, not with EmptyDatasetError. -/
theorem claim_c7_counterexample :
    parseRows [["Name", "1st"], ["A"]] = .error (.rowShape 2 "A") ∧
    ParseError.rowShape 2 "A" ≠ ParseError.emptyDataset := by decide

/-- C7 (amended): parseRows fails with StructuralError whenever fewer than 2
rows are supplied; it fails with EmptyDatasetError when 2 or more rows are
supplied and every data row is skipped as blank (so processing completes
with zero participants — a malformed data row instead fails with that row's
own error); and in every non-failing case the participant list is
non-empty. -/
theorem claim_c7_failure_modes :
    (∀ rows : List (List String), rows.length < 2 →
        parseRows rows = .error .structural) ∧
    (∀ (header : List String) (hasGroup : Bool)
        (dataRows : List (List String)),
        headerHasGroup header = some hasGroup → dataRows ≠ [] →
        (∀ row ∈ dataRows, skippedRow row = true) →
        parseRows (header :: dataRows) = .error .emptyDataset) ∧
    (∀ (rows : List (List String)) (req : DebateRequest),
        parseRows rows = .ok req → req.participants ≠ []) := by
  refine ⟨?_, ?_, ?_⟩
  · intro rows h
    simp [parseRows, h]
  · intro header hasGroup dataRows hh hne hskip
    have hp := processRows_all_skipped hskip hasGroup 2
    cases dataRows with
    | nil => exact absurd rfl hne
    | cons r rest =>
      have hlen : ¬(header :: r :: rest).length < 2 := by
        simp only [List.length_cons]; omega
      simp [parseRows, hlen, hh, hp]
  · intro rows req h
    unfold parseRows at h
    split at h
    · cases h
    · split at h
      · cases h
      · split at h
        · cases h
        · split at h
          · cases h
          · split at h
            · cases h
            · rename_i psl peq hz
              cases h
              intro hcon
              have hps : psl = [] := hcon
              rw [hps] at hz
              exact hz rfl

/-- C7 witness: a one-row grid fails StructuralError; a grid whose data rows
are all blank fails EmptyDatasetError; a successful parse has a non-empty
participant list. -/
theorem claim_c7_failure_modes_witness :
    parseRows [["Name", "1st"]] = .error .structural ∧
    parseRows [["Name", "1st"], ["", "5"], [" "]] = .error .emptyDataset ∧
    (⟨[⟨"A", [1], none⟩]⟩ : DebateRequest).participants ≠ [] := by
  refine ⟨?_, ?_, ?_⟩
  · exact claim_c7_failure_modes.1 [["Name", "1st"]] (by decide)
  · exact claim_c7_failure_modes.2.1 ["Name", "1st"] false [["", "5"], [" "]]
      (by decide) (by decide) (by decide)
  · exact claim_c7_failure_modes.2.2 [["Name", "1st"], ["A", "1"]]
      ⟨[⟨"A", [1], none⟩]⟩ (by decide)

/-- C8 counterexample: a non-skipped 1-cell row with surrounding whitespace
is reported with the trimmed content "A", not the raw row content "  A  ". -/
theorem claim_c8_counterexample :
    parseRows [["Name", "1st"], ["  A  "]] = .error (.rowShape 2 "A") ∧
    ("A" : String) ≠ "  A  " := by decide

/-- C8 (amended): every data row that, after trimming, is empty or has an
empty first cell is skipped silently and produces no participant; every
non-skipped data row with fewer than 2 cells fails with a RowShapeError
carrying the 1-based line number of that row in the original grid
(unaffected by any skipped blank rows before it) and the trimmed row
content (the trimmed cells joined with ", "), not the raw cells. -/
theorem claim_c8_row_shape :
    (∀ (hasGroup : Bool) (line : Nat) (row : List String),
        skippedRow row = true → processRow hasGroup line row = .ok none) ∧
    (∀ (hasGroup : Bool) (header : List String)
        (pre post : List (List String)) (row : List String),
        headerHasGroup header = some hasGroup →
        (∀ i (hi : i < pre.length),
          ∃ o, processRow hasGroup (2 + i) (pre.get ⟨i, hi⟩) = .ok o) →
        skippedRow row = false → (row.map jsTrim).length < 2 →
        parseRows (header :: (pre ++ row :: post)) =
          .error (.rowShape (2 + pre.length) (jsJoin ", " (row.map jsTrim)))) := by
  constructor
  · intro hasGroup line row h
    exact processRow_skipped h hasGroup line
  · intro hasGroup header pre post row hh hpre hne hlen
    exact parseRows_error_of hh
      (processRows_error_of pre post 2 hpre
        (processRow_shortRow hasGroup (2 + pre.length) hne hlen))

/-- C8 witness: two blank rows are skipped and the short row after them is
reported at its original grid position (line 4). -/
theorem claim_c8_row_shape_witness :
    processRow false 2 [" ", ""] = .ok none ∧
    parseRows [["Name", "1st"], ["", ""], ["  "], ["X"]] =
      .error (.rowShape 4 "X") := by
  constructor
  · exact claim_c8_row_shape.1 false 2 [" ", ""] (by decide)
  · have h := claim_c8_row_shape.2 false ["Name", "1st"] [["", ""], ["  "]] []
      ["X"] (by decide) ?_ (by decide) (by decide)
    · exact h
    · intro i hi
      have hi2 : i < 2 := by simpa using hi
      interval_cases i
      · exact ⟨none, rfl⟩
      · exact ⟨none, rfl⟩

/-- C10: Every Participant returned by parseRows has a non-empty trimmed
name, and its group field is either absent entirely or a non-empty list in
which every element is a non-empty trimmed token; no participant is ever
returned with an empty group list. -/
theorem claim_c10_participant_invariants (rows : List (List String))
    (req : DebateRequest) (h : parseRows rows = .ok req) :
    ∀ p ∈ req.participants, p.name ≠ "" ∧ jsTrim p.name = p.name ∧
      (p.group = none ∨ ∃ l, p.group = some l ∧ l ≠ [] ∧
        ∀ t ∈ l, t ≠ "" ∧ jsTrim t = t) := by
  intro p hp
  obtain ⟨header, dataRows, hg, -, -, hps⟩ := parseRows_ok_inv h
  obtain ⟨line, row, hrow⟩ := processRows_mem hps p hp
  obtain ⟨v0, rest, hv, h0, -, -, hname, hgrpT, hgrpF⟩ := processRow_ok_some hrow
  have hrowcons : ∃ r0 rs, row = r0 :: rs := by
    cases row with
    | nil => cases hv
    | cons r0 rs => exact ⟨r0, rs, rfl⟩
  obtain ⟨r0, rs, hr0⟩ := hrowcons
  have hv0 : v0 = jsTrim r0 := by
    rw [hr0] at hv
    simp only [List.map_cons, List.cons.injEq] at hv
    exact hv.1.symm
  refine ⟨by rw [hname]; exact h0, by rw [hname, hv0, jsTrim_idem], ?_⟩
  cases hg with
  | false => exact Or.inl (hgrpF rfl)
  | true =>
    have hpg := hgrpT rfl
    cases hgf : groupFieldOf ((v0 :: rest).getLastD "") with
    | none => exact Or.inl (by rw [hpg, hgf])
    | some l =>
      have hl := groupFieldOf_some hgf
      exact Or.inr ⟨l, by rw [hpg, hgf], hl.1, hl.2⟩

/-- C10 witness: a row with padded name and group cells yields a trimmed
non-empty name and a non-empty list of trimmed non-empty group tokens. -/
theorem claim_c10_participant_invariants_witness :
    (⟨"A", [1], some ["x", "y"]⟩ : Participant).name ≠ "" ∧
    jsTrim (⟨"A", [1], some ["x", "y"]⟩ : Participant).name =
      (⟨"A", [1], some ["x", "y"]⟩ : Participant).name ∧
    ((⟨"A", [1], some ["x", "y"]⟩ : Participant).group = none ∨
      ∃ l, (⟨"A", [1], some ["x", "y"]⟩ : Participant).group = some l ∧
        l ≠ [] ∧ ∀ t ∈ l, t ≠ "" ∧ jsTrim t = t) := by
  exact claim_c10_participant_invariants
    [["Name", "1st", "Group"], [" A ", "1", "x; y"]]
    ⟨[⟨"A", [1], some ["x", "y"]⟩]⟩ (by decide)
    ⟨"A", [1], some ["x", "y"]⟩ (by simp)

/-- C5: the Result Serializer produces exactly one header row
`Name,Role,Preference,Group`; then, for each room in input order, one
single-cell marker row with the room's name, one row per assignment in input
order with name, role, preference rendered in decimal, and group (the empty
string when the assignment has no group), and one blank separator row; and
the row content never depends on which Format was used (the format reaches
only the download file name). -/
theorem claim_c5_serializer (rooms : List Room) :
    convertLines rooms =
      "Name,Role,Preference,Group" ::
        rooms.flatMap (fun room =>
          room.name ::
            (room.assignments.map (fun a =>
              jsJoin "," [a.name, a.role, intToDec a.preference, a.group]) ++
              [""])) ∧
    ∀ (f1 f2 : DebateFormat) (ts : String),
      (handleDownloadCSV f1 rooms ts).1 = (handleDownloadCSV f2 rooms ts).1 := by
  constructor
  · have hfun : assignmentRowCSV = fun a =>
        jsJoin "," [a.name, a.role, intToDec a.preference, a.group] := by
      funext a
      unfold assignmentRowCSV
      rw [jsOrEmpty_eq]
    rw [convertLines_eq, hfun]
  · intro f1 f2 ts
    rfl

/-- C6 counterexample: a comma inside an assignment name is not quoted by
the serializer, so decoding splits the row into five cells and the original
(name, role, preference, group) tuple is not reproduced. -/
theorem claim_c6_counterexample :
    decodeCSV (convertResultsToCSV [⟨"R", [⟨"a,b", "PM", 1, "g"⟩]⟩]) =
      [["Name", "Role", "Preference", "Group"], ["R"],
        ["a", "b", "PM", "1", "g"]] ∧
    (["a", "b", "PM", "1", "g"] : List String) ≠ ["a,b", "PM", "1", "g"] := by
  decide

/-- C6 (amended): for every ScheduleResult whose room names are non-empty
and whose room names and assignment fields contain no comma, double quote or
newline and carry no leading or trailing whitespace, serializing the rooms
and decoding the text back yields exactly the header row, then per room the
room-name marker row followed by one row per assignment holding the
serialized (name, role, preference, group) fields, the blank separator rows
having been discarded by the decoder; fields containing a comma (or quote,
newline, or padding whitespace) are not reproduced, as the serializer never
quotes. -/
theorem claim_c6_roundtrip (rooms : List Room)
    (hclean : ∀ r ∈ rooms, r.name ≠ "" ∧ CleanCell r.name ∧
      ∀ a ∈ r.assignments, CleanCell a.name ∧ CleanCell a.role ∧
        CleanCell a.group) :
    decodeCSV (convertResultsToCSV rooms) =
      ["Name", "Role", "Preference", "Group"] ::
        rooms.flatMap (fun r =>
          [r.name] :: r.assignments.map (fun a =>
            [a.name, a.role, intToDec a.preference, a.group])) := by
  have hL := convertLines_eq rooms
  have hnl : ∀ x ∈ convertLines rooms, ∀ c ∈ x.data, c ≠ '\n' := by
    rw [hL]
    intro x hx c hc
    rcases List.mem_cons.mp hx with hx1 | hx2
    · subst hx1
      revert hc
      revert c
      decide
    · obtain ⟨r, hr, hxr⟩ := List.mem_flatMap.mp hx2
      obtain ⟨hname, hcleanN, hassign⟩ := hclean r hr
      rcases List.mem_cons.mp hxr with hx3 | hx4
      · subst hx3
        exact fun hcon => hcleanN.1 c hc (Or.inr (Or.inr hcon))
      · rcases List.mem_append.mp hx4 with hx5 | hx6
        · obtain ⟨a, ha, hax⟩ := List.mem_map.mp hx5
          subst hax
          obtain ⟨hcn, hcr, hcg⟩ := hassign a ha
          have hc2 : c ∈ (jsJoin ","
              [a.name, a.role, intToDec a.preference, jsOrEmpty a.group]).data := hc
          rcases mem_jsJoin _ _ c hc2 with hsep | ⟨y, hy, hcy⟩
          · have : c = ',' := by simpa using hsep
            rw [this]; decide
          · have hy4 : y = a.name ∨ y = a.role ∨ y = intToDec a.preference ∨
                y = jsOrEmpty a.group := by simpa using hy
            rcases hy4 with hz | hz | hz | hz
            · subst hz; exact fun hcon => hcn.1 c hcy (Or.inr (Or.inr hcon))
            · subst hz; exact fun hcon => hcr.1 c hcy (Or.inr (Or.inr hcon))
            · subst hz
              exact fun hcon =>
                (cleanCell_intToDec a.preference).1 c hcy (Or.inr (Or.inr hcon))
            · subst hz
              rw [jsOrEmpty_eq] at hcy
              exact fun hcon => hcg.1 c hcy (Or.inr (Or.inr hcon))
        · have hx7 : x = "" := by simpa using hx6
          subst hx7
          simp at hc
  have hlines_ne : convertLines rooms ≠ [] := by
    rw [hL]; simp
  have hfilter : (convertLines rooms).filter (fun l => l ≠ "") =
      "Name,Role,Preference,Group" ::
        rooms.flatMap (fun r => r.name :: r.assignments.map assignmentRowCSV) := by
    rw [hL]
    have hflat : ∀ rs : List Room, (∀ r ∈ rs, r.name ≠ "") →
        (rs.flatMap (fun room =>
          room.name :: (room.assignments.map assignmentRowCSV ++ [""]))).filter
            (fun l => l ≠ "") =
          rs.flatMap (fun r => r.name :: r.assignments.map assignmentRowCSV) := by
      intro rs
      induction rs with
      | nil => intro _; rfl
      | cons r rest ih =>
        intro hn
        have hmapne : (r.assignments.map assignmentRowCSV).filter
            (fun l => l ≠ "") = r.assignments.map assignmentRowCSV := by
          refine List.filter_eq_self.mpr ?_
          intro x hx
          obtain ⟨a, -, hax⟩ := List.mem_map.mp hx
          exact decide_eq_true (by rw [← hax]; exact assignmentRowCSV_ne_empty a)
        have hrname : r.name ≠ "" := hn r (by simp)
        simp only [List.flatMap_cons, List.filter_append, List.filter_cons]
        rw [ih (fun x hx => hn x (by simp [hx]))]
        simp [hrname, hmapne]
        exact fun a _ => assignmentRowCSV_ne_empty a
    rw [List.filter_cons, hflat rooms (fun r hr => (hclean r hr).1)]
    have hhead : ("Name,Role,Preference,Group" : String) ≠ "" := by decide
    simp [hhead]
  have hmaprec : ∀ rs : List Room,
      (∀ r ∈ rs, r.name ≠ "" ∧ CleanCell r.name ∧
        ∀ a ∈ r.assignments, CleanCell a.name ∧ CleanCell a.role ∧
          CleanCell a.group) →
      (rs.flatMap (fun r => r.name :: r.assignments.map assignmentRowCSV)).map
          (fun line => (splitCSVFields line.data false []).map
            (fun f => jsTrim (⟨f⟩ : String))) =
        rs.flatMap (fun r =>
          [r.name] :: r.assignments.map (fun a =>
            [a.name, a.role, intToDec a.preference, a.group])) := by
    intro rs
    induction rs with
    | nil => intro _; rfl
    | cons r rest ih =>
      intro hcl
      obtain ⟨hname, hcleanN, hassign⟩ := hcl r (by simp)
      simp only [List.flatMap_cons, List.map_append, List.map_cons]
      rw [ih (fun x hx => hcl x (by simp [hx]))]
      congr 2
      · rw [splitCSVFields_clean (fun c hc =>
          ⟨fun hcon => hcleanN.1 c hc (Or.inl hcon),
           fun hcon => hcleanN.1 c hc (Or.inr (Or.inl hcon))⟩) []]
        simp only [List.reverse_nil, List.nil_append, List.map_cons,
          List.map_nil]
        rw [string_mk_data]
        rw [hcleanN.2]
      · rw [List.map_map]
        refine List.map_congr_left ?_
        intro a ha
        obtain ⟨hcn, hcr, hcg⟩ := hassign a ha
        show (splitCSVFields (assignmentRowCSV a).data false []).map
          (fun f => jsTrim (⟨f⟩ : String)) =
          [a.name, a.role, intToDec a.preference, a.group]
        have hfields : ∀ x ∈ [a.name, a.role, intToDec a.preference,
            jsOrEmpty a.group],
            (∀ c ∈ x.data, ¬(c = ',' ∨ c = '"' ∨ c = '\n')) ∧ jsTrim x = x := by
          intro x hx
          have hy4 : x = a.name ∨ x = a.role ∨ x = intToDec a.preference ∨
              x = jsOrEmpty a.group := by simpa using hx
          rcases hy4 with hz | hz | hz | hz
          · subst hz; exact ⟨hcn.1, hcn.2⟩
          · subst hz; exact ⟨hcr.1, hcr.2⟩
          · subst hz
            exact ⟨(cleanCell_intToDec a.preference).1,
              (cleanCell_intToDec a.preference).2⟩
          · subst hz
            rw [jsOrEmpty_eq]
            exact ⟨hcg.1, hcg.2⟩
        rw [show (assignmentRowCSV a).data = (jsJoin ","
          [a.name, a.role, intToDec a.preference, jsOrEmpty a.group]).data
          from rfl]
        rw [decodeLine_jsJoin (by simp) hfields, jsOrEmpty_eq]
  show (((splitListOn '\n' (jsJoin "\n" (convertLines rooms)).data).map
      (fun l => (⟨l⟩ : String))).filter (fun l => l ≠ "")).map
      (fun line => (splitCSVFields line.data false []).map
        (fun f => jsTrim (⟨f⟩ : String))) = _
  rw [splitListOn_jsJoin rfl (convertLines rooms) hlines_ne hnl, map_mk_data,
    hfilter, List.map_cons, hmaprec rooms hclean]
  congr 1

/-- C6 witness: a concrete two-assignment room round-trips to the expected
grid once the header, marker and separator rows are accounted for. -/
theorem claim_c6_roundtrip_witness :
    decodeCSV (convertResultsToCSV
        [⟨"Room 1", [⟨"A", "PM", 1, "11am"⟩, ⟨"B", "LO", 2, ""⟩]⟩]) =
      [["Name", "Role", "Preference", "Group"], ["Room 1"],
        ["A", "PM", "1", "11am"], ["B", "LO", "2", ""]] := by
  have h := claim_c6_roundtrip
    [⟨"Room 1", [⟨"A", "PM", 1, "11am"⟩, ⟨"B", "LO", 2, ""⟩]⟩] (by decide)
  exact h

/-! ## Concrete evaluations of the embedding

Sanity checks that the embedded primitives and pipeline compute the values
the JavaScript source produces on the spec's own examples. -/

example : jsTrim "  a b " = "a b" := by decide
example : jsParseInt "2x" = some 2 := by decide
example : jsParseInt "x" = none := by decide
example : jsParseInt "-12" = some (-12) := by decide
example : jsParseInt "-" = none := by decide
example : intToDec (-105) = "-105" := by decide
example : splitGroupValue "11am; 2pm ;" = ["11am", "2pm"] := by decide
example :
    parseRows [["Name", "1st", "Group"], ["A", "1", " 11am;2pm "]] =
      .ok ⟨[⟨"A", [1], some ["11am", "2pm"]⟩]⟩ := by decide
example :
    parseRows [["Name", "1st", "2nd"], ["A", "1", "2"], ["B", "", "1"]] =
      .ok ⟨[⟨"A", [1, 2], none⟩, ⟨"B", [2, 1], none⟩]⟩ := by decide
example :
    parseRows [["Name", "1st", "2nd"], ["C", "x", "2"]] =
      .error (.cellParse 2 2 "x" "C, x, 2") := by decide
example : parseRows [["Name", "1st"]] = .error .structural := by decide
example : parseRows [["Name", "1st"], ["A"]] = .error (.rowShape 2 "A") := by decide
example : parseRows [["Name", "1st"], ["", "3"]] = .error .emptyDataset := by decide
example :
    convertLines [⟨"Room 1", [⟨"A", "PM", 1, "11am"⟩, ⟨"B", "LO", 2, ""⟩]⟩] =
      ["Name,Role,Preference,Group", "Room 1", "A,PM,1,11am", "B,LO,2,", ""] := by decide
example :
    decodeCSV (convertResultsToCSV [⟨"Room 1", [⟨"A", "PM", 1, "11am"⟩, ⟨"B", "LO", 2, ""⟩]⟩]) =
      [["Name", "Role", "Preference", "Group"], ["Room 1"],
       ["A", "PM", "1", "11am"], ["B", "LO", "2", ""]] := by decide
example :
    decodeCSV (convertResultsToCSV [⟨"R", [⟨"a,b", "PM", 1, "g"⟩]⟩]) =
      [["Name", "Role", "Preference", "Group"], ["R"],
       ["a", "b", "PM", "1", "g"]] := by decide
